import Mathlib

/-!
Verification development for the TopSearch landscape-exploration core.

The repository ships only notebooks that call the `topsearch` package, so the
components exercised by the notebooks (similarity comparison, the kinetic
transition network, basin hopping, the nudged elastic band driver and the
network-sampling orchestrator) are modelled here from the specification and
the properties stated about them are proved over that model.  Machine floats
are modelled by rationals.
-/

namespace TopSearch

/-- Modelled from the spec: a Point is a coordinate vector in the potential's
domain.  The `topsearch` package implementation is absent from the repository
(only notebooks calling it are present), so coordinates are modelled as
rational vectors. -/
abbrev Point := List ℚ

/-- Modelled from the spec: squared Euclidean distance between two points in
the potential's native coordinate space. -/
def distSq (a b : Point) : ℚ :=
  (List.zipWith (fun x y => (x - y) ^ 2) a b).sum

/-- Modelled from the spec: the per-dimension range of the domain bounds.
The spec's example domains have the same range in every dimension, so the
range of the first dimension is used (0.05 of a range of 1000 gives 50). -/
def boundsRange : List (ℚ × ℚ) → ℚ
  | [] => 0
  | b :: _ => b.2 - b.1

/-- Modelled from the spec: the `NonAtomicSimilarity` comparer of the missing
`topsearch.similarity` module.  It stores the two thresholds; in proportional
configuration the distance criterion has already been converted to an absolute
threshold at construction (see `NonAtomicSimilarity.make`). -/
structure NonAtomicSimilarity where
  energy_criterion : ℚ
  distance_criterion : ℚ
deriving DecidableEq

/-- Modelled from the spec: construction of the comparer.  When
`proportional_distance` is set, the distance criterion is interpreted as a
fraction of the domain's per-dimension range and converted once, here, into
an absolute threshold. -/
def NonAtomicSimilarity.make (bounds : List (ℚ × ℚ)) (distance_criterion : ℚ)
    (energy_criterion : ℚ) (proportional_distance : Bool) : NonAtomicSimilarity :=
  { energy_criterion := energy_criterion
    distance_criterion :=
      if proportional_distance then distance_criterion * boundsRange bounds
      else distance_criterion }

/-- Modelled from the spec: two stationary points are the same exactly when
their value difference is below `energy_criterion` and their Euclidean
distance is below `distance_criterion`.  The distance test is performed on
squares so that the predicate stays inside ℚ; `is_same_characterisation`
relates it to the real Euclidean distance.  The predicate is a plain function
of its arguments, hence side-effect free. -/
@[irreducible] def NonAtomicSimilarity.is_same (s : NonAtomicSimilarity)
    (pa : Point) (va : ℚ) (pb : Point) (vb : ℚ) : Bool :=
  decide (|va - vb| < s.energy_criterion) &&
    decide (distSq pa pb < s.distance_criterion ^ 2)

/-- Modelled from the spec: a TransitionState is a Point with its value, the
most-negative Hessian eigenvector there, and the ids of the two minima it
connects. -/
structure TransitionState where
  point : Point
  value : ℚ
  eigenvector : Point
  min1 : Nat
  min2 : Nat
deriving DecidableEq

/-- Modelled from the spec: the `KineticTransitionNetwork` of the missing
`topsearch.kinetic_transition_network` module.  Minima are the nodes (a
minimum's id is its position in the list), transition states are the weighted
edges, and the similarity comparer supplied at construction mediates every
insertion. -/
structure KineticTransitionNetwork where
  similarity : NonAtomicSimilarity
  minima : List (Point × ℚ)
  tss : List TransitionState
deriving DecidableEq

/-- Index of the first element of the list satisfying the test, scanning in
insertion order. -/
def firstMatch (p : α → Bool) : List α → Option Nat
  | [] => none
  | a :: l => if p a then some 0 else (firstMatch p l).map (· + 1)

/-- Modelled from the spec: `add_minimum` scans the existing minima for a
match via the SimilarityComparer; if one is found the existing id is returned
and no node is created, otherwise a new node is appended and its fresh id is
returned. -/
def KineticTransitionNetwork.add_minimum (k : KineticTransitionNetwork)
    (p : Point) (v : ℚ) : Nat × KineticTransitionNetwork :=
  match firstMatch (fun m => k.similarity.is_same m.1 m.2 p v) k.minima with
  | some i => (i, k)
  | none => (k.minima.length, { k with minima := k.minima ++ [(p, v)] })

/-- Equality of unordered minimum-id pairs (edge ordering is irrelevant). -/
def sameEdgePair (a b c d : Nat) : Bool :=
  decide ((a = c ∧ b = d) ∨ (a = d ∧ b = c))

/-- Modelled from the spec: `add_transition_state` is a silent no-op when the
two minimum ids coincide (self-loops disallowed), discards the candidate when
the SimilarityComparer matches it against an existing transition state, and
keeps multi-edges between the same pair of minima disallowed; otherwise the
edge is inserted with weight `value`. -/
def KineticTransitionNetwork.add_transition_state (k : KineticTransitionNetwork)
    (p : Point) (v : ℚ) (evec : Point) (ida idb : Nat) : KineticTransitionNetwork :=
  if ida = idb then k
  else if k.tss.any (fun t => k.similarity.is_same t.point t.value p v) then k
  else if k.tss.any (fun t => sameEdgePair t.min1 t.min2 ida idb) then k
  else { k with tss := k.tss ++ [⟨p, v, evec, ida, idb⟩] }

/-- Modelled from the spec: the persisted network format holds the minima
coordinates, minima values, transition-state coordinates, transition-state
values, and the pair list mapping each transition state to its two minimum
indices. -/
structure NetworkFile where
  min_coords : List Point
  min_data : List ℚ
  ts_coords : List Point
  ts_data : List ℚ
  pairlist : List (Nat × Nat)

/-- Modelled from the spec: `dump_network` serialises the full graph state
into the persisted format. -/
def KineticTransitionNetwork.dump_network (k : KineticTransitionNetwork) : NetworkFile :=
  { min_coords := k.minima.map Prod.fst
    min_data := k.minima.map Prod.snd
    ts_coords := k.tss.map TransitionState.point
    ts_data := k.tss.map TransitionState.value
    pairlist := k.tss.map (fun t => (t.min1, t.min2)) }

/-- Modelled from the spec: `read_network` restores the graph from the
persisted format; mismatched counts between the files are fatal, surfaced
here as `none`.  The persisted format carries no eigenvectors, so restored
transition states get an empty one. -/
def KineticTransitionNetwork.read_network (k : KineticTransitionNetwork)
    (f : NetworkFile) : Option KineticTransitionNetwork :=
  if f.min_coords.length = f.min_data.length ∧
      f.ts_coords.length = f.ts_data.length ∧
      f.ts_data.length = f.pairlist.length then
    some { k with
      minima := f.min_coords.zip f.min_data
      tss := (f.ts_coords.zip (f.ts_data.zip f.pairlist)).map
        (fun x => ⟨x.1, x.2.1, [], x.2.2.1, x.2.2.2⟩) }
  else none

/-- Modelled from the spec: `reset` clears all nodes and edges. -/
def KineticTransitionNetwork.reset (k : KineticTransitionNetwork) :
    KineticTransitionNetwork :=
  { k with minima := [], tss := [] }

/-- Projection of a transition state onto the data that the persisted network
format stores about an edge: its coordinates, its value (the edge weight) and
the two minimum ids it connects. -/
def stripTS (t : TransitionState) : Point × ℚ × Nat × Nat :=
  (t.point, t.value, t.min1, t.min2)

/-- The graph invariant of the data model: between any pair of minima there is
at most one transition-state edge. -/
def EdgeUnique (k : KineticTransitionNetwork) : Prop :=
  List.Pairwise
    (fun t1 t2 => sameEdgePair t1.min1 t1.min2 t2.min1 t2.min2 = false) k.tss

/-- Network states reachable from an empty network through the mutating
operations of the KineticTransitionNetwork. -/
inductive Reachable : KineticTransitionNetwork → Prop
  | empty (sim : NonAtomicSimilarity) : Reachable ⟨sim, [], []⟩
  | addMin (k : KineticTransitionNetwork) (p : Point) (v : ℚ) :
      Reachable k → Reachable (k.add_minimum p v).2
  | addTS (k : KineticTransitionNetwork) (p : Point) (v : ℚ) (e : Point)
      (a b : Nat) : Reachable k → Reachable (k.add_transition_state p v e a b)

/-- A candidate pair of minimum ids awaiting a transition-state search. -/
abbrev MinPair := Nat × Nat

/-- Modelled from the spec: the `NetworkSampling` orchestrator of the missing
`topsearch.exploration` module.  `multiprocessing` and `n_processes` are plain
mutable attributes of the object. -/
structure NetworkSampling where
  ktn : KineticTransitionNetwork
  multiprocessing : Bool
  n_processes : Nat

/-- Modelled from the spec: the stationary points discovered by one landscape
generation pass.  Each candidate pair is an independent task (`task` is the
per-pair NEB-plus-eigenvector-following search); with multiprocessing off the
pairs are processed in sequence, with it on they are first split among
`n_processes` workers by the external parallel-map contract (`splitTasks`)
and each worker's results are collected. -/
def discovered (task : MinPair → List TransitionState) (ns : NetworkSampling)
    (splitTasks : Nat → List MinPair → List (List MinPair))
    (pairs : List MinPair) : List TransitionState :=
  if ns.multiprocessing then
    ((splitTasks ns.n_processes pairs).map (fun c => c.flatMap task)).flatten
  else pairs.flatMap task

/-- Modelled from the spec: the single-coordinator batch merge of the
transition-state insertion requests produced by the searches, each mediated
by `add_transition_state`. -/
def mergeTS (k : KineticTransitionNetwork) (l : List TransitionState) :
    KineticTransitionNetwork :=
  l.foldl
    (fun k2 t => k2.add_transition_state t.point t.value t.eigenvector t.min1 t.min2)
    k

/-- Modelled from the spec: `generate_landscape` runs the per-pair searches
over the candidate pair list (serially or split across workers) and merges
every resulting transition state into the network. -/
def NetworkSampling.generate_landscape (ns : NetworkSampling)
    (task : MinPair → List TransitionState)
    (splitTasks : Nat → List MinPair → List (List MinPair))
    (pairs : List MinPair) : KineticTransitionNetwork :=
  mergeTS ns.ktn (discovered task ns splitTasks pairs)

/-- Modelled from the spec: the state carried across basin-hopping
iterations — the current accepted point with its value, and the shared
network. -/
structure BHState where
  coords : Point
  value : ℚ
  ktn : KineticTransitionNetwork

/-- Modelled from the spec: one basin-hopping iteration.  A candidate is
proposed by the step-taking policy `st`, driven to a trial minimum by the
local minimiser `mi`, inserted (deduplicated) into the network regardless of
acceptance, and then the Metropolis decision `ac` (indexed by the iteration
and fed the current and trial values) picks the next current point. -/
def bhStep (st : Nat → Point → Point) (mi : Point → Point × ℚ)
    (ac : Nat → ℚ → ℚ → Bool) (i : Nat) (s : BHState) : BHState :=
  if ac i s.value (mi (st i s.coords)).2 then
    ⟨(mi (st i s.coords)).1, (mi (st i s.coords)).2,
      (s.ktn.add_minimum (mi (st i s.coords)).1 (mi (st i s.coords)).2).2⟩
  else
    ⟨s.coords, s.value,
      (s.ktn.add_minimum (mi (st i s.coords)).1 (mi (st i s.coords)).2).2⟩

/-- Modelled from the spec: the sequence of basin-hopping states, starting
from the initial state and performing one `bhStep` per iteration with no
early stopping. -/
def bhTrace (st : Nat → Point → Point) (mi : Point → Point × ℚ)
    (ac : Nat → ℚ → ℚ → Bool) : Nat → Nat → BHState → List BHState
  | _, 0, s => [s]
  | i, n + 1, s => s :: bhTrace st mi ac (i + 1) n (bhStep st mi ac i s)

/-- Modelled from the spec: the `BasinHopping` configuration of the missing
`topsearch.global_optimisation` module. -/
structure BasinHopping where
  n_steps : Nat
  temperature : ℚ

/-- Modelled from the spec: a full basin-hopping run of exactly `n_steps`
iterations. -/
def BasinHopping.run (bh : BasinHopping) (st : Nat → Point → Point)
    (mi : Point → Point × ℚ) (ac : Nat → ℚ → ℚ → Bool) (s : BHState) :
    List BHState :=
  bhTrace st mi ac 0 bh.n_steps s

/-- Modelled from the spec: the Metropolis acceptance probability for an
uphill trial, `exp(-(trial - current)/temperature)`; at zero temperature the
uphill acceptance probability is the zero-temperature limit 0. -/
noncomputable def metropolis_probability (trial current temperature : ℚ) : ℝ :=
  if temperature = 0 then 0
  else Real.exp (-((trial : ℝ) - (current : ℝ)) / (temperature : ℝ))

/-- Modelled from the spec: the Metropolis criterion.  A trial is accepted
when its value is at most the current value, and otherwise when the uniform
random draw `u` falls below the acceptance probability. -/
def metropolis_accept (trial current temperature u : ℚ) : Prop :=
  trial ≤ current ∨ (u : ℝ) < metropolis_probability trial current temperature

/-- Modelled from the spec: a discretised nudged-elastic-band path, the
ordered sequence of images with their potential values. -/
abbrev NebPath := List (Point × ℚ)

/-- Modelled from the spec: NEB relaxation iterates the relaxation step until
the path force converges below `tol` or the iteration budget is exhausted; on
exhaustion the best available path is returned together with a `false`
convergence flag, never an exception. -/
def nebRelax (relaxStep : NebPath → NebPath) (forceNorm : NebPath → ℚ)
    (tol : ℚ) : Nat → NebPath → NebPath × Bool
  | 0, pth => (pth, false)
  | n + 1, pth =>
      if forceNorm pth < tol then (pth, true)
      else nebRelax relaxStep forceNorm tol n (relaxStep pth)

/-- Modelled from the spec: the local value maxima along the discretised
path, the candidate transition-state seed points handed to the single-ended
search. -/
def pathMaxima (pth : NebPath) : List Point :=
  (pth.zip (pth.tail.zip pth.tail.tail)).filterMap
    (fun x => if x.1.2 < x.2.1.2 ∧ x.2.2.2 < x.2.1.2 then some x.2.1.1 else none)

/-- Modelled from the spec: the per-pair search of landscape generation — an
NEB relaxation from the initial interpolated path followed by the single-ended
search `hef` on every path maximum, whether or not the relaxation converged
(`hef` returns `none` on a failed or degenerate search, which is dropped). -/
def processPair (relaxStep : NebPath → NebPath) (forceNorm : NebPath → ℚ)
    (tol : ℚ) (budget : Nat) (hef : Point → Option TransitionState)
    (initPath : MinPair → NebPath) (pr : MinPair) : List TransitionState :=
  (pathMaxima (nebRelax relaxStep forceNorm tol budget (initPath pr)).1).filterMap
    hef

/-- Comparer used by the concrete witnesses: proportional configuration with
fraction 1/20 of a per-dimension range of 1000, hence absolute threshold 50,
and energy criterion 1/100. -/
def demoComparer : NonAtomicSimilarity :=
  NonAtomicSimilarity.make [(0, 1000)] (1/20) (1/100) true

/-- Network used by the concrete witnesses: the demo comparer together with a
single stored minimum. -/
def demoKTN : KineticTransitionNetwork :=
  ⟨demoComparer, [([0], 0)], []⟩

/-- Empty network used by the concrete witnesses. -/
def demoEmptyKTN : KineticTransitionNetwork :=
  ⟨demoComparer, [], []⟩

/-- Per-pair search used by the concrete witnesses: one transition state per
candidate pair. -/
def demoTask : MinPair → List TransitionState :=
  fun pr => [⟨[], 0, [], pr.1, pr.2⟩]

/-- Trivial one-worker task split used by the concrete witnesses. -/
def demoSplit : Nat → List MinPair → List (List MinPair) :=
  fun _ l => [l]

/-- Candidate pair list used by the concrete witnesses. -/
def demoPairs : List MinPair := [(0, 1), (1, 2)]

/-- Orchestrator used by the concrete witnesses. -/
def demoNS : NetworkSampling := ⟨demoEmptyKTN, false, 2⟩

/-! ### Helper lemmas -/

theorem distSq_self (p : Point) : distSq p p = 0 := by
  induction p with
  | nil => rfl
  | cons x xs ih =>
      simp only [distSq, List.zipWith_cons_cons, List.sum_cons] at ih ⊢
      rw [ih]; ring

theorem is_same_refl (s : NonAtomicSimilarity) (he : 0 < s.energy_criterion)
    (hd : 0 < s.distance_criterion) (p : Point) (v : ℚ) :
    s.is_same p v p v = true := by
  simp only [NonAtomicSimilarity.is_same, Bool.and_eq_true, decide_eq_true_iff]
  refine ⟨by simpa using he, ?_⟩
  rw [distSq_self]
  exact pow_pos hd 2

theorem firstMatch_of_mem {α : Type u} (p : α → Bool) (l : List α)
    (h : ∃ a ∈ l, p a = true) : ∃ i, firstMatch p l = some i := by
  induction l with
  | nil => simp at h
  | cons a l ih =>
      by_cases hpa : p a = true
      · exact ⟨0, by simp [firstMatch, hpa]⟩
      · have h2 : ∃ b ∈ l, p b = true := by
          obtain ⟨b, hb, hpb⟩ := h
          rcases List.mem_cons.mp hb with h1 | h1
          · subst h1; exact absurd hpb hpa
          · exact ⟨b, h1, hpb⟩
        obtain ⟨i, hi⟩ := ih h2
        exact ⟨i + 1, by simp [firstMatch, hpa, hi]⟩

theorem firstMatch_spec {α : Type u} {p : α → Bool} {l : List α} {i : Nat}
    (h : firstMatch p l = some i) :
    ∃ a, l.get? i = some a ∧ p a = true ∧
      ∀ j < i, ∀ b, l.get? j = some b → p b = false := by
  induction l generalizing i with
  | nil => simp [firstMatch] at h
  | cons a l ih =>
      by_cases hpa : p a = true
      · simp only [firstMatch, hpa, if_true, Option.some.injEq] at h
        subst h
        exact ⟨a, rfl, hpa, by omega⟩
      · simp only [firstMatch, hpa, if_false, Bool.false_eq_true,
          Option.map_eq_some'] at h
        obtain ⟨i2, hi2, rfl⟩ := h
        obtain ⟨b, hb, hpb, hmin⟩ := ih hi2
        refine ⟨b, by simpa using hb, hpb, ?_⟩
        intro j hj c hc
        cases j with
        | zero =>
            have hca : a = c := by simpa using hc
            subst hca
            simpa using hpa
        | succ j =>
            exact hmin j (by omega) c (by simpa using hc)

theorem firstMatch_append_single {α : Type u} {p : α → Bool} {l : List α}
    (h : firstMatch p l = none) (a : α) :
    firstMatch p (l ++ [a]) = if p a then some l.length else none := by
  induction l with
  | nil => simp [firstMatch]
  | cons x l ih =>
      by_cases hpx : p x = true
      · simp [firstMatch, hpx] at h
      · have h2 : firstMatch p l = none := by
          simpa [firstMatch, hpx] using h
        have h3 := ih h2
        have h4 : firstMatch p ((x :: l) ++ [a])
            = (firstMatch p (l ++ [a])).map (· + 1) := by
          simp [firstMatch, hpx]
        rw [h4, h3]
        by_cases hpa : p a = true <;> simp [hpa]

theorem add_minimum_eq_of_some {k : KineticTransitionNetwork} {p : Point}
    {v : ℚ} {i : Nat}
    (h : firstMatch (fun m => k.similarity.is_same m.1 m.2 p v) k.minima = some i) :
    k.add_minimum p v = (i, k) := by
  unfold KineticTransitionNetwork.add_minimum
  rw [h]

theorem add_minimum_eq_of_none {k : KineticTransitionNetwork} {p : Point} {v : ℚ}
    (h : firstMatch (fun m => k.similarity.is_same m.1 m.2 p v) k.minima = none) :
    k.add_minimum p v
      = (k.minima.length, { k with minima := k.minima ++ [(p, v)] }) := by
  unfold KineticTransitionNetwork.add_minimum
  rw [h]

/-! ### C3: the similarity predicate -/

/-- C3: `is_same` returns true exactly when the value difference is below
`energy_criterion` and the Euclidean distance is below the absolute
`distance_criterion`; proportionally configured construction converts the
criterion once into the given fraction of the per-dimension range (and
non-proportional construction keeps it as given).  The predicate is a plain
function, hence free of side effects. -/
theorem is_same_characterisation (s : NonAtomicSimilarity)
    (hd : 0 < s.distance_criterion) (pa : Point) (va : ℚ) (pb : Point) (vb : ℚ) :
    (s.is_same pa va pb vb = true ↔
      |va - vb| < s.energy_criterion ∧
        Real.sqrt ((distSq pa pb : ℚ) : ℝ) < (s.distance_criterion : ℝ))
    ∧ (∀ (bounds : List (ℚ × ℚ)) (dc ec : ℚ),
        (NonAtomicSimilarity.make bounds dc ec true).distance_criterion
            = dc * boundsRange bounds
        ∧ (NonAtomicSimilarity.make bounds dc ec false).distance_criterion = dc) := by
  constructor
  · have hd2 : (0 : ℝ) < (s.distance_criterion : ℝ) := by exact_mod_cast hd
    simp only [NonAtomicSimilarity.is_same, Bool.and_eq_true, decide_eq_true_iff,
      Real.sqrt_lt' hd2]
    exact and_congr_right fun _ => by exact_mod_cast Iff.rfl
  · intro bounds dc ec
    exact ⟨by simp [NonAtomicSimilarity.make], by simp [NonAtomicSimilarity.make]⟩

theorem is_same_characterisation_witness :
    (0 : ℚ) < demoComparer.distance_criterion
    ∧ ((demoComparer.is_same [0] 0 [0] 0 = true ↔
        |(0 : ℚ) - 0| < demoComparer.energy_criterion ∧
          Real.sqrt ((distSq [0] [0] : ℚ) : ℝ) < (demoComparer.distance_criterion : ℝ))
      ∧ (∀ (bounds : List (ℚ × ℚ)) (dc ec : ℚ),
          (NonAtomicSimilarity.make bounds dc ec true).distance_criterion
              = dc * boundsRange bounds
          ∧ (NonAtomicSimilarity.make bounds dc ec false).distance_criterion = dc)) :=
  ⟨by norm_num [demoComparer, NonAtomicSimilarity.make, boundsRange],
    is_same_characterisation demoComparer
      (by norm_num [demoComparer, NonAtomicSimilarity.make, boundsRange]) [0] 0 [0] 0⟩

/-! ### C1: deduplicated, idempotent minimum insertion -/

/-- C1: when the comparer judges `(p, v)` the same as an already-stored
minimum, `add_minimum` returns the id of the first-inserted matching minimum
and leaves the network (hence its node count) unchanged; and a second call
with the same `(p, v)` always returns the same id as the first call and
leaves the network produced by the first call unchanged. -/
theorem add_minimum_dedup_idempotent (k : KineticTransitionNetwork) (p : Point)
    (v : ℚ) (he : 0 < k.similarity.energy_criterion)
    (hd : 0 < k.similarity.distance_criterion) :
    ((∃ m ∈ k.minima, k.similarity.is_same m.1 m.2 p v = true) →
      ∃ i m, k.add_minimum p v = (i, k)
        ∧ k.minima.get? i = some m
        ∧ k.similarity.is_same m.1 m.2 p v = true
        ∧ ∀ j < i, ∀ m2, k.minima.get? j = some m2 →
            k.similarity.is_same m2.1 m2.2 p v = false)
    ∧ (k.add_minimum p v).2.add_minimum p v
        = ((k.add_minimum p v).1, (k.add_minimum p v).2) := by
  constructor
  · intro hmatch
    obtain ⟨i, hi⟩ :=
      firstMatch_of_mem (fun m => k.similarity.is_same m.1 m.2 p v) k.minima hmatch
    obtain ⟨m, hm, hpm, hmin⟩ := firstMatch_spec hi
    exact ⟨i, m, add_minimum_eq_of_some hi, hm, hpm, hmin⟩
  · rcases h : firstMatch (fun m => k.similarity.is_same m.1 m.2 p v) k.minima
      with _ | i
    · have hrefl : k.similarity.is_same p v p v = true := is_same_refl _ he hd p v
      have h2 : firstMatch (fun m => k.similarity.is_same m.1 m.2 p v)
          (k.minima ++ [(p, v)]) = some k.minima.length := by
        rw [firstMatch_append_single h]
        simp [hrefl]
      rw [add_minimum_eq_of_none h]
      exact add_minimum_eq_of_some h2
    · rw [add_minimum_eq_of_some h]
      exact add_minimum_eq_of_some h

theorem add_minimum_dedup_idempotent_witness :
    ((0 : ℚ) < demoKTN.similarity.energy_criterion
      ∧ (0 : ℚ) < demoKTN.similarity.distance_criterion)
    ∧ (((∃ m ∈ demoKTN.minima, demoKTN.similarity.is_same m.1 m.2 [0] 0 = true) →
        ∃ i m, demoKTN.add_minimum [0] 0 = (i, demoKTN)
          ∧ demoKTN.minima.get? i = some m
          ∧ demoKTN.similarity.is_same m.1 m.2 [0] 0 = true
          ∧ ∀ j < i, ∀ m2, demoKTN.minima.get? j = some m2 →
              demoKTN.similarity.is_same m2.1 m2.2 [0] 0 = false)
      ∧ (demoKTN.add_minimum [0] 0).2.add_minimum [0] 0
          = ((demoKTN.add_minimum [0] 0).1, (demoKTN.add_minimum [0] 0).2)) :=
  ⟨⟨by norm_num [demoKTN, demoComparer, NonAtomicSimilarity.make, boundsRange],
    by norm_num [demoKTN, demoComparer, NonAtomicSimilarity.make, boundsRange]⟩,
    add_minimum_dedup_idempotent demoKTN [0] 0
      (by norm_num [demoKTN, demoComparer, NonAtomicSimilarity.make, boundsRange])
      (by norm_num [demoKTN, demoComparer, NonAtomicSimilarity.make, boundsRange])⟩

/-! ### C9: self-loop insertion is a silent no-op -/

/-- C9: `add_transition_state` called with equal minimum ids returns the
network unchanged — no exception, no new edge, no new node. -/
theorem add_transition_state_self_loop (k : KineticTransitionNetwork) (p : Point)
    (v : ℚ) (evec : Point) (x : Nat) :
    k.add_transition_state p v evec x x = k
    ∧ (k.add_transition_state p v evec x x).tss = k.tss
    ∧ (k.add_transition_state p v evec x x).minima = k.minima := by
  have h : k.add_transition_state p v evec x x = k := by
    unfold KineticTransitionNetwork.add_transition_state
    rw [if_pos rfl]
  exact ⟨h, by rw [h], by rw [h]⟩

/-! ### C2: dump and read round-trip -/

/-- C2: reading a dumped network into a fresh network reconstructs the same
minima (coordinates and values) and the same transition-state edges
(coordinates, weights and connected minimum ids), i.e. a graph of identical
topology and edge weights. -/
theorem dump_read_roundtrip (k fresh : KineticTransitionNetwork) :
    ∃ k2, fresh.read_network k.dump_network = some k2
      ∧ k2.minima = k.minima
      ∧ k2.tss.map stripTS = k.tss.map stripTS := by
  have hck : k.dump_network.min_coords.length = k.dump_network.min_data.length ∧
      k.dump_network.ts_coords.length = k.dump_network.ts_data.length ∧
      k.dump_network.ts_data.length = k.dump_network.pairlist.length := by
    simp [KineticTransitionNetwork.dump_network]
  rw [KineticTransitionNetwork.read_network, if_pos hck]
  refine ⟨_, rfl, ?_, ?_⟩
  · simp [KineticTransitionNetwork.dump_network, List.zip_map']
  · simp [KineticTransitionNetwork.dump_network, stripTS, List.zip_map',
      List.map_map, Function.comp]

/-! ### C4: at most one edge between any pair of minima -/

theorem add_minimum_tss (k : KineticTransitionNetwork) (p : Point) (v : ℚ) :
    ((k.add_minimum p v).2).tss = k.tss := by
  rcases h : firstMatch (fun m => k.similarity.is_same m.1 m.2 p v) k.minima
    with _ | i
  · rw [add_minimum_eq_of_none h]
  · rw [add_minimum_eq_of_some h]

theorem add_transition_state_EdgeUnique (k : KineticTransitionNetwork)
    (p : Point) (v : ℚ) (e : Point) (a b : Nat) (hk : EdgeUnique k) :
    EdgeUnique (k.add_transition_state p v e a b) := by
  unfold KineticTransitionNetwork.add_transition_state
  split
  · exact hk
  · split
    · exact hk
    · split
      · exact hk
      · rename_i h1 h2 h3
        have h3f : k.tss.any (fun t => sameEdgePair t.min1 t.min2 a b) = false := by
          simpa using h3
        show List.Pairwise _ (k.tss ++ [⟨p, v, e, a, b⟩])
        rw [List.pairwise_append]
        refine ⟨hk, List.pairwise_singleton _ _, ?_⟩
        intro t1 ht1 t2 ht2
        have ht2e : t2 = ⟨p, v, e, a, b⟩ := by simpa using ht2
        subst ht2e
        simpa using List.any_eq_false.mp h3f t1 ht1

theorem reachable_EdgeUnique {k : KineticTransitionNetwork} (h : Reachable k) :
    EdgeUnique k := by
  induction h with
  | empty sim => exact List.Pairwise.nil
  | addMin k p v hk ih =>
      unfold EdgeUnique
      rw [add_minimum_tss]
      exact ih
  | addTS k p v e a b hk ih => exact add_transition_state_EdgeUnique k p v e a b ih

theorem mergeTS_EdgeUnique (l : List TransitionState)
    (k : KineticTransitionNetwork) (hk : EdgeUnique k) :
    EdgeUnique (mergeTS k l) := by
  induction l generalizing k with
  | nil => exact hk
  | cons t l ih => exact ih _ (add_transition_state_EdgeUnique _ _ _ _ _ _ hk)

theorem add_transition_state_match_noop (k : KineticTransitionNetwork)
    (p : Point) (v : ℚ) (e : Point) (a b : Nat)
    (h : k.tss.any (fun t => k.similarity.is_same t.point t.value p v) = true) :
    k.add_transition_state p v e a b = k := by
  unfold KineticTransitionNetwork.add_transition_state
  by_cases hab : a = b
  · rw [if_pos hab]
  · rw [if_neg hab, if_pos h]

/-- C4: every reachable network state carries at most one transition-state
edge between any pair of minima; a transition state that the comparer matches
against an existing one is discarded with the graph unchanged; and a
landscape-generation pass starting from a reachable network preserves the
one-edge-per-pair invariant, so it never creates a duplicate edge for an
already-connected pair. -/
theorem edge_pair_uniqueness (k : KineticTransitionNetwork) (hk : Reachable k) :
    EdgeUnique k
    ∧ (∀ (p : Point) (v : ℚ) (e : Point) (a b : Nat),
        k.tss.any (fun t => k.similarity.is_same t.point t.value p v) = true →
        k.add_transition_state p v e a b = k)
    ∧ (∀ (ns : NetworkSampling) (task : MinPair → List TransitionState)
        (splitTasks : Nat → List MinPair → List (List MinPair))
        (pairs : List MinPair), ns.ktn = k →
        EdgeUnique (ns.generate_landscape task splitTasks pairs)) := by
  refine ⟨reachable_EdgeUnique hk,
    fun p v e a b h => add_transition_state_match_noop k p v e a b h, ?_⟩
  intro ns task splitTasks pairs hns
  unfold NetworkSampling.generate_landscape
  rw [hns]
  exact mergeTS_EdgeUnique _ _ (reachable_EdgeUnique hk)

theorem edge_pair_uniqueness_witness :
    Reachable demoEmptyKTN
    ∧ (EdgeUnique demoEmptyKTN
      ∧ (∀ (p : Point) (v : ℚ) (e : Point) (a b : Nat),
          demoEmptyKTN.tss.any
              (fun t => demoEmptyKTN.similarity.is_same t.point t.value p v) = true →
          demoEmptyKTN.add_transition_state p v e a b = demoEmptyKTN)
      ∧ (∀ (ns : NetworkSampling) (task : MinPair → List TransitionState)
          (splitTasks : Nat → List MinPair → List (List MinPair))
          (pairs : List MinPair), ns.ktn = demoEmptyKTN →
          EdgeUnique (ns.generate_landscape task splitTasks pairs))) :=
  ⟨Reachable.empty demoComparer,
    edge_pair_uniqueness demoEmptyKTN (Reachable.empty demoComparer)⟩

/-! ### C5: exactly n_steps iterations, every trial minimum recorded -/

theorem bhTrace_length (st : Nat → Point → Point) (mi : Point → Point × ℚ)
    (ac : Nat → ℚ → ℚ → Bool) (i n : Nat) (s : BHState) :
    (bhTrace st mi ac i n s).length = n + 1 := by
  induction n generalizing i s with
  | zero => rfl
  | succ n ih =>
      show (s :: bhTrace st mi ac (i + 1) n (bhStep st mi ac i s)).length = n + 1 + 1
      rw [List.length_cons, ih]

theorem bhStep_ktn (st : Nat → Point → Point) (mi : Point → Point × ℚ)
    (ac : Nat → ℚ → ℚ → Bool) (i : Nat) (s : BHState) :
    (bhStep st mi ac i s).ktn
      = (s.ktn.add_minimum (mi (st i s.coords)).1 (mi (st i s.coords)).2).2 := by
  unfold bhStep
  by_cases h : ac i s.value (mi (st i s.coords)).2 = true
  · rw [if_pos h]
  · rw [if_neg h]

/-- C5: a basin-hopping run visits exactly `n_steps + 1` states, i.e. executes
exactly `n_steps` iterations with no early stopping; each iteration's network
is the deduplicated `add_minimum` insertion of that iteration's trial
minimum, and it is the same whether the Metropolis decision (any acceptance
oracle) accepts or rejects the trial — the recorded minima do not depend on
the acceptance decision. -/
theorem bh_exact_steps_records_all (st : Nat → Point → Point)
    (mi : Point → Point × ℚ) (ac ac2 : Nat → ℚ → ℚ → Bool) (bh : BasinHopping)
    (i : Nat) (s : BHState) :
    (bh.run st mi ac s).length = bh.n_steps + 1
    ∧ (bhStep st mi ac i s).ktn
        = (s.ktn.add_minimum (mi (st i s.coords)).1 (mi (st i s.coords)).2).2
    ∧ (bhStep st mi ac i s).ktn = (bhStep st mi ac2 i s).ktn := by
  refine ⟨bhTrace_length st mi ac 0 bh.n_steps s, bhStep_ktn st mi ac i s, ?_⟩
  rw [bhStep_ktn st mi ac i s, bhStep_ktn st mi ac2 i s]

/-! ### C6: Metropolis criterion and zero-temperature monotonicity -/

theorem metropolis_probability_zero (trial current : ℚ) :
    metropolis_probability trial current 0 = 0 := by
  unfold metropolis_probability
  rw [if_pos rfl]

theorem bhStep_value_le (st : Nat → Point → Point) (mi : Point → Point × ℚ)
    (ac : Nat → ℚ → ℚ → Bool) (u : Nat → ℚ) (hu : ∀ i, 0 ≤ u i)
    (hac : ∀ i c t, ac i c t = true ↔ metropolis_accept t c 0 (u i))
    (j : Nat) (s2 : BHState) :
    (bhStep st mi ac j s2).value ≤ s2.value := by
  unfold bhStep
  by_cases h : ac j s2.value (mi (st j s2.coords)).2 = true
  · rw [if_pos h]
    rcases (hac j s2.value _).mp h with hle | hlt
    · exact hle
    · rw [metropolis_probability_zero] at hlt
      have hu2 : (0 : ℝ) ≤ ((u j : ℚ) : ℝ) := by exact_mod_cast hu j
      linarith
  · rw [if_neg h]

theorem bhTrace_headQ (st : Nat → Point → Point) (mi : Point → Point × ℚ)
    (ac : Nat → ℚ → ℚ → Bool) (i n : Nat) (s : BHState) :
    (bhTrace st mi ac i n s).head? = some s := by
  cases n <;> rfl

theorem bhTrace_value_chain (st : Nat → Point → Point) (mi : Point → Point × ℚ)
    (ac : Nat → ℚ → ℚ → Bool) (u : Nat → ℚ) (hu : ∀ i, 0 ≤ u i)
    (hac : ∀ i c t, ac i c t = true ↔ metropolis_accept t c 0 (u i))
    (i n : Nat) (s : BHState) :
    List.Chain' (fun a b => b ≤ a) ((bhTrace st mi ac i n s).map BHState.value) := by
  induction n generalizing i s with
  | zero => simp [bhTrace]
  | succ n ih =>
      show List.Chain' (fun a b => b ≤ a)
        ((s :: bhTrace st mi ac (i + 1) n (bhStep st mi ac i s)).map BHState.value)
      rw [List.map_cons, List.chain'_cons']
      refine ⟨?_, ih (i + 1) _⟩
      intro y hy
      rw [List.head?_map, bhTrace_headQ] at hy
      have hy2 : y = (bhStep st mi ac i s).value := by simpa using hy.symm
      rw [hy2]
      exact bhStep_value_le st mi ac u hu hac i s

/-- C6: basin hopping accepts a trial whose value is at most the current
value, otherwise accepts exactly when the uniform draw falls below the
probability `exp(-(trial - current)/temperature)`, and a rejection leaves
the current point and value unchanged; consequently in a zero-temperature
run (nonnegative uniform draws) the sequence of accepted current-point
values never increases. -/
theorem metropolis_zero_temperature_monotone (st : Nat → Point → Point)
    (mi : Point → Point × ℚ) (ac : Nat → ℚ → ℚ → Bool) (u : Nat → ℚ)
    (hu : ∀ i, 0 ≤ u i)
    (hac : ∀ i c t, ac i c t = true ↔ metropolis_accept t c 0 (u i))
    (i0 n : Nat) (s : BHState) :
    (∀ trial current temperature uu : ℚ, trial ≤ current →
        metropolis_accept trial current temperature uu)
    ∧ (∀ (j : Nat) (s2 : BHState),
        ac j s2.value (mi (st j s2.coords)).2 = false →
        (bhStep st mi ac j s2).coords = s2.coords
          ∧ (bhStep st mi ac j s2).value = s2.value)
    ∧ List.Chain' (fun a b => b ≤ a)
        ((bhTrace st mi ac i0 n s).map BHState.value) := by
  refine ⟨fun _ _ _ _ h => Or.inl h, ?_, bhTrace_value_chain st mi ac u hu hac i0 n s⟩
  intro j s2 h
  have hne : ¬ ac j s2.value (mi (st j s2.coords)).2 = true := by simp [h]
  unfold bhStep
  rw [if_neg hne]
  exact ⟨rfl, rfl⟩

theorem metropolis_zero_temperature_monotone_witness :
    ((∀ i : Nat, (0 : ℚ) ≤ (fun _ : Nat => (0 : ℚ)) i)
      ∧ (∀ (i : Nat) (c t : ℚ),
          (fun (_ : Nat) (c2 t2 : ℚ) => decide (t2 ≤ c2)) i c t = true ↔
            metropolis_accept t c 0 ((fun _ : Nat => (0 : ℚ)) i)))
    ∧ ((∀ trial current temperature uu : ℚ, trial ≤ current →
          metropolis_accept trial current temperature uu)
      ∧ (∀ (j : Nat) (s2 : BHState),
          (fun (_ : Nat) (c2 t2 : ℚ) => decide (t2 ≤ c2)) j s2.value
              ((fun q : Point => (q, (0 : ℚ))) ((fun (_ : Nat) (q : Point) => q) j
                s2.coords)).2 = false →
          (bhStep (fun _ q => q) (fun q => (q, 0))
              (fun _ c2 t2 => decide (t2 ≤ c2)) j s2).coords = s2.coords
            ∧ (bhStep (fun _ q => q) (fun q => (q, 0))
                (fun _ c2 t2 => decide (t2 ≤ c2)) j s2).value = s2.value)
      ∧ List.Chain' (fun a b => b ≤ a)
          ((bhTrace (fun _ q => q) (fun q => (q, 0))
              (fun _ c2 t2 => decide (t2 ≤ c2)) 0 2
              ⟨[], 0, demoEmptyKTN⟩).map BHState.value)) :=
  ⟨⟨fun _ => le_refl 0,
    fun _ c t => by simp [metropolis_accept, metropolis_probability]⟩,
    metropolis_zero_temperature_monotone (fun _ q => q) (fun q => (q, 0))
      (fun _ c2 t2 => decide (t2 ≤ c2)) (fun _ => 0) (fun _ => le_refl 0)
      (fun _ c t => by simp [metropolis_accept, metropolis_probability])
      0 2 ⟨[], 0, demoEmptyKTN⟩⟩

/-! ### C7: serial and parallel landscape generation find the same set -/

theorem flatten_map_flatMap {α : Type u} {β : Type v} (chunks : List (List α))
    (task : α → List β) :
    ((chunks.map (fun c => c.flatMap task)).flatten) = chunks.flatten.flatMap task := by
  induction chunks with
  | nil => rfl
  | cons c cs ih =>
      simp only [List.map_cons, List.flatten_cons, List.flatMap_append, ih]

/-- C7: with a genuine task partition (its chunks concatenate to a
permutation of the candidate pair list) and the same deterministic per-pair
search, the stationary points discovered with multiprocessing on are a
permutation of those discovered with it off — identical as sets, only the
order may differ. -/
theorem parallel_serial_same_set (task : MinPair → List TransitionState)
    (ns : NetworkSampling)
    (splitTasks : Nat → List MinPair → List (List MinPair))
    (pairs : List MinPair)
    (hpart : List.Perm ((splitTasks ns.n_processes pairs).flatten) pairs) :
    List.Perm (discovered task { ns with multiprocessing := true } splitTasks pairs)
      (discovered task { ns with multiprocessing := false } splitTasks pairs)
    ∧ ∀ t, t ∈ discovered task { ns with multiprocessing := true } splitTasks pairs
        ↔ t ∈ discovered task { ns with multiprocessing := false } splitTasks pairs := by
  have hperm : List.Perm
      (discovered task { ns with multiprocessing := true } splitTasks pairs)
      (discovered task { ns with multiprocessing := false } splitTasks pairs) := by
    show List.Perm
      (((splitTasks ns.n_processes pairs).map (fun c => c.flatMap task)).flatten)
      (pairs.flatMap task)
    rw [flatten_map_flatMap]
    exact List.Perm.flatMap_right task hpart
  exact ⟨hperm, fun t => hperm.mem_iff⟩

theorem parallel_serial_same_set_witness :
    List.Perm ((demoSplit demoNS.n_processes demoPairs).flatten) demoPairs
    ∧ (List.Perm
        (discovered demoTask { demoNS with multiprocessing := true } demoSplit demoPairs)
        (discovered demoTask { demoNS with multiprocessing := false } demoSplit demoPairs)
      ∧ ∀ t, t ∈ discovered demoTask { demoNS with multiprocessing := true }
            demoSplit demoPairs
          ↔ t ∈ discovered demoTask { demoNS with multiprocessing := false }
            demoSplit demoPairs) :=
  ⟨by simp [demoSplit], parallel_serial_same_set demoTask demoNS demoSplit demoPairs
    (by simp [demoSplit])⟩

/-! ### C8: non-converged NEB returns gracefully and its maxima are used -/

theorem nebRelax_exhausted (relaxStep : NebPath → NebPath)
    (forceNorm : NebPath → ℚ) (tol : ℚ) :
    ∀ (budget : Nat) (pth : NebPath),
      (∀ j < budget, ¬ forceNorm (relaxStep^[j] pth) < tol) →
      nebRelax relaxStep forceNorm tol budget pth = (relaxStep^[budget] pth, false)
  | 0, pth, _ => rfl
  | n + 1, pth, h => by
      have h0 : ¬ forceNorm pth < tol := by simpa using h 0 (Nat.succ_pos n)
      show (if forceNorm pth < tol then (pth, true)
          else nebRelax relaxStep forceNorm tol n (relaxStep pth))
        = (relaxStep^[n + 1] pth, false)
      rw [if_neg h0, Function.iterate_succ_apply]
      exact nebRelax_exhausted relaxStep forceNorm tol n (relaxStep pth)
        (fun j hj => by
          have h2 := h (j + 1) (by omega)
          rw [Function.iterate_succ_apply] at h2
          exact h2)

/-- C8: when the path force stays above tolerance for the whole iteration
budget, NEB relaxation returns the last relaxed path together with a `false`
convergence flag — a total function, no exception, so the enclosing batch
continues — and the per-pair search applies the single-ended search to the
maxima of whatever path NEB returned, converged or not. -/
theorem neb_nonconvergence_graceful (relaxStep : NebPath → NebPath)
    (forceNorm : NebPath → ℚ) (tol : ℚ) (budget : Nat) (pth : NebPath)
    (h : ∀ j < budget, ¬ forceNorm (relaxStep^[j] pth) < tol) :
    nebRelax relaxStep forceNorm tol budget pth = (relaxStep^[budget] pth, false)
    ∧ (∀ (hef : Point → Option TransitionState) (initPath : MinPair → NebPath)
        (pr : MinPair),
        processPair relaxStep forceNorm tol budget hef initPath pr
          = (pathMaxima
              (nebRelax relaxStep forceNorm tol budget (initPath pr)).1).filterMap
              hef) :=
  ⟨nebRelax_exhausted relaxStep forceNorm tol budget pth h,
    fun _ _ _ => rfl⟩

theorem neb_nonconvergence_graceful_witness :
    (∀ j < 1, ¬ (fun _ : NebPath => (1 : ℚ)) ((id : NebPath → NebPath)^[j] []) < 0)
    ∧ (nebRelax id (fun _ => 1) 0 1 [] = ((id : NebPath → NebPath)^[1] [], false)
      ∧ ∀ (hef : Point → Option TransitionState) (initPath : MinPair → NebPath)
          (pr : MinPair),
          processPair id (fun _ => 1) 0 1 hef initPath pr
            = (pathMaxima (nebRelax id (fun _ => 1) 0 1 (initPath pr)).1).filterMap
                hef) :=
  ⟨by intro j hj; norm_num,
    neb_nonconvergence_graceful id (fun _ => 1) 0 1 []
      (by intro j hj; norm_num)⟩

/-! ### C10: reassigned multiprocessing flags are the ones used -/

/-- C10: `multiprocessing` and `n_processes` are plain attributes of the
orchestrator; after reassigning them, `generate_landscape` dispatches on the
new flag and splits work over the new process count, independently of the
values supplied at construction. -/
theorem flags_reassignment (ns : NetworkSampling) (b : Bool) (np : Nat)
    (task : MinPair → List TransitionState)
    (splitTasks : Nat → List MinPair → List (List MinPair))
    (pairs : List MinPair) :
    ({ ns with multiprocessing := b, n_processes := np } :
        NetworkSampling).multiprocessing = b
    ∧ ({ ns with multiprocessing := b, n_processes := np } :
        NetworkSampling).n_processes = np
    ∧ ({ ns with multiprocessing := b, n_processes := np } :
        NetworkSampling).generate_landscape task splitTasks pairs
      = mergeTS ns.ktn
          (if b then ((splitTasks np pairs).map (fun c => c.flatMap task)).flatten
           else pairs.flatMap task) := by
  refine ⟨rfl, rfl, ?_⟩
  cases b
  · rfl
  · rfl

end TopSearch
